import Mathlib

/-!
Shallow embedding of the analytics logic of the Harris County finance
transparency tool (src/app.py).

Numeric cells are modelled as Option ℚ: some q is a parsed numeric value,
none is the missing-value sentinel (pandas NaN).  Pandas semantics used by
the code are modelled explicitly: column sums skip missing values
(Series.sum with skipna), and an ordered comparison with a missing operand
is false.  The official roster (CURRENT_OFFICIALS / ALL_OFFICIALS in the
source) is a fixed externally supplied configuration, so every component
takes it as an explicit roster parameter; ALL_OFFICIALS below is the
concrete configuration value of the source.
-/

/-- A normalized campaign-finance filing row (one row per official per
report period); numeric fields are a rational or the missing sentinel. -/
structure FinRecord where
  name : String
  reportPeriod : String
  year : Int
  raised : Option ℚ
  spent : Option ℚ
  loans : Option ℚ
  cashOnHand : Option ℚ
deriving DecidableEq

/-- A lobbyist registration row. -/
structure LobRecord where
  lobbyistName : String
  client : String
  category : String
deriving DecidableEq

/-- A vendor contract row. -/
structure VendRecord where
  vendorName : String
  category : String
  department : String
deriving DecidableEq

/-- The fixed current-roster configuration of the source (the flattening
of CURRENT_OFFICIALS). -/
def ALL_OFFICIALS : List String :=
  ["Lina Hidalgo", "Rodney Ellis", "Adrian Garcia", "Tom Ramsey", "Lesley Briones"]

/-! ## Record Normalizer (load_data, lines 82-84)

load_data applies pandas.to_numeric with coercion mode to each numeric
column.  We model to_numeric on a single cell the way the underlying float
conversion parses it: after trimming whitespace, an optional sign followed
by either an infinity literal (inf or infinity, any letter case), the
literal nan (the missing sentinel itself), or decimal digits with an
optional fractional part and an optional decimal exponent.  Anything else
fails to parse, and the error mode then decides between raising and the
missing sentinel.  A successfully parsed number is kept as an exact
rational: the float overflow of a huge finite decimal to infinity is not
modelled, but infinity literals themselves are. -/

/-- Error mode of pandas.to_numeric. -/
inductive ErrMode
  | raiseErr
  | coerce
deriving DecidableEq

/-- A parsed numeric cell value: a rational number or a signed infinity
(from an infinity literal); the missing sentinel NaN is represented by
none at the use sites. -/
inductive NumValue
  | num (q : ℚ)
  | posInf
  | negInf
deriving DecidableEq

/-- Result of normalizing one numeric cell: either a value (ok, where none
is the missing sentinel) or a raised parse error (err). -/
inductive NumResult
  | ok (v : Option NumValue)
  | err (msg : String)
deriving DecidableEq

/-- Numeric value of a list of decimal digit characters. -/
def digitsVal (l : List Char) : ℕ :=
  l.foldl (fun a c => 10 * a + (c.toNat - 48)) 0

/-- Strip whitespace from both ends of a character list. -/
def trimChars (l : List Char) : List Char :=
  ((l.dropWhile Char.isWhitespace).reverse.dropWhile Char.isWhitespace).reverse

/-- Parse decimal digits with an optional fractional part; returns the
value and the unconsumed rest (an exponent suffix, if any). -/
def parseMantissa (l : List Char) : Option (ℚ × List Char) :=
  let ip := l.takeWhile Char.isDigit
  let rest := l.dropWhile Char.isDigit
  match rest with
  | '.' :: fp0 =>
    let fp := fp0.takeWhile Char.isDigit
    let rest2 := fp0.dropWhile Char.isDigit
    if ip.isEmpty && fp.isEmpty then none
    else some ((digitsVal ip : ℚ) + (digitsVal fp : ℚ) / (10 : ℚ) ^ fp.length, rest2)
  | _ => if ip.isEmpty then none else some ((digitsVal ip : ℚ), rest)

/-- Apply an optional decimal exponent suffix to a mantissa value. -/
def applyExponent (m : ℚ) (l : List Char) : Option ℚ :=
  match l with
  | [] => some m
  | c :: r =>
    if c = 'e' ∨ c = 'E' then
      let signRest : Bool × List Char :=
        match r with
        | '-' :: rr => (true, rr)
        | '+' :: rr => (false, rr)
        | rr => (false, rr)
      if signRest.2.isEmpty || !signRest.2.all Char.isDigit then none
      else if signRest.1 then some (m / (10 : ℚ) ^ digitsVal signRest.2)
      else some (m * (10 : ℚ) ^ digitsVal signRest.2)
    else none

/-- Parse an unsigned decimal number with optional fraction and
exponent. -/
def parseDecimalChars (l : List Char) : Option ℚ :=
  match parseMantissa l with
  | none => none
  | some mr => applyExponent mr.1 mr.2

/-- Parse a full numeric cell: an optional sign, then an infinity literal,
a nan literal (the sentinel) or an unsigned decimal number. -/
def parseCell (l : List Char) : Option (Option NumValue) :=
  let signRest : Bool × List Char :=
    match l with
    | '-' :: r => (true, r)
    | '+' :: r => (false, r)
    | r => (false, r)
  let low := signRest.2.map Char.toLower
  if low = ['i', 'n', 'f'] ∨ low = ['i', 'n', 'f', 'i', 'n', 'i', 't', 'y'] then
    some (some (if signRest.1 then NumValue.negInf else NumValue.posInf))
  else if low = ['n', 'a', 'n'] then some none
  else
    match parseDecimalChars signRest.2 with
    | some q => some (some (NumValue.num (if signRest.1 then -q else q)))
    | none => none

/-- Model of pandas.to_numeric on one raw cell, with the error mode the
caller selects (load_data passes coercion). -/
def to_numeric (mode : ErrMode) (s : String) : NumResult :=
  match parseCell (trimChars s.data) with
  | some v => NumResult.ok v
  | none =>
    match mode with
    | ErrMode.raiseErr => NumResult.err ("Unable to parse string " ++ s)
    | ErrMode.coerce => NumResult.ok none

/-! ## Aggregator (main, lines 253-255 and 471-477) -/

/-- The latest reporting period: the period label of the first record
(ReportPeriod.iloc[0] in the source). -/
def latest_period (fin : List FinRecord) : Option String :=
  fin.head?.map (·.reportPeriod)

/-- All records of the latest reporting period (latest_data, line 254). -/
def latest_data (fin : List FinRecord) : List FinRecord :=
  match latest_period fin with
  | none => []
  | some p => fin.filter (fun r => r.reportPeriod == p)

/-- The latest-period records of current-roster officials (latest_current,
line 255). -/
def latest_current (fin : List FinRecord) (roster : List String) : List FinRecord :=
  (latest_data fin).filter (fun r => roster.contains r.name)

/-- The per-official latest-period figures: the numeric fields of that
official's first latest-period row (the iloc[0] reads of the source). -/
def periodFigures (fin : List FinRecord) (roster : List String) (o : String) :
    Option (Option ℚ × Option ℚ × Option ℚ × Option ℚ) :=
  ((latest_current fin roster).find? (fun r => r.name == o)).map
    (fun r => (r.raised, r.spent, r.loans, r.cashOnHand))

/-- Lifetime aggregate of one official (lines 471-477): total raised and
total spent summed over all of that official's records (missing values
skipped, as pandas sum does), plus the spend ratio when total raised is
positive. -/
def lifetimeAggregate (fin : List FinRecord) (o : String) : ℚ × ℚ × Option ℚ :=
  let recs := fin.filter (fun r => r.name == o)
  let totalRaised := (recs.map (fun r => r.raised.getD 0)).sum
  let totalSpent := (recs.map (fun r => r.spent.getD 0)).sum
  (totalRaised, totalSpent,
    if 0 < totalRaised then some (totalSpent / totalRaised) else none)

/-! ## Flow Allocator (create_sankey_diagram, lines 171-229)

We model the link triples (source index, target index, value) the Sankey
figure is built from.  Node 0 is the donor source, node i+1 the i-th row of
the latest-period current-roster subset, and nodes n+1 .. n+4 (n the subset
size) the four fixed spending categories. -/

/-- Stage-2 links of the row with index i: four fixed-proportion bucket
links when spent is positive, none otherwise. -/
def s2edges (n i : ℕ) (r : FinRecord) : List (ℕ × ℕ × ℚ) :=
  let spent := r.spent.getD 0
  if 0 < spent then
    [(i + 1, n + 1, spent * 0.4), (i + 1, n + 2, spent * 0.3),
     (i + 1, n + 3, spent * 0.2), (i + 1, n + 4, spent * 0.1)]
  else []

/-- Stage-2 links of all rows, numbering rows from i upward. -/
def stage2 (n : ℕ) : ℕ → List FinRecord → List (ℕ × ℕ × ℚ)
  | _, [] => []
  | i, r :: rs => s2edges n i r ++ stage2 n (i + 1) rs

/-- Stage-1 links: the donor source node 0 sends each row its raised
amount (zero if missing). -/
def stage1 : ℕ → List FinRecord → List (ℕ × ℕ × ℚ)
  | _, [] => []
  | i, r :: rs => (0, i + 1, r.raised.getD 0) :: stage1 (i + 1) rs

/-- The link triples computed by create_sankey_diagram. -/
def sankey_links (fin : List FinRecord) (roster : List String) : List (ℕ × ℕ × ℚ) :=
  stage1 0 (latest_current fin roster) ++
    stage2 (latest_current fin roster).length 0 (latest_current fin roster)

/-! ## Overlap Detector (main, lines 441-456) -/

/-- Uppercase a string (str.upper on ASCII names). -/
def upperStr (s : String) : String := String.mk (s.data.map Char.toUpper)

/-- Split a character list on whitespace runs, discarding empty pieces
(Python str.split with no separator); acc holds the current word
reversed. -/
def splitWSAux : List Char → List Char → List (List Char)
  | [], acc => if acc.isEmpty then [] else [acc.reverse]
  | c :: cs, acc =>
    if c.isWhitespace then
      if acc.isEmpty then splitWSAux cs [] else acc.reverse :: splitWSAux cs []
    else splitWSAux cs (c :: acc)

/-- The uppercase whitespace-token set of an entity name. -/
def tokens (s : String) : Finset String :=
  ((splitWSAux (upperStr s).data []).map String.mk).toFinset

/-- The deduplicated uppercased name set of a nullable name column
(set(column.str.upper().dropna()) in the source). -/
def nameSet (l : List (Option String)) : Finset String :=
  ((l.filterMap id).map upperStr).toFinset

/-- An emitted lobbyist-client / vendor overlap record. -/
structure Overlap where
  client : String
  vendor : String
  sharedTokens : Finset String
deriving DecidableEq

/-- The overlap records emitted for two nullable name columns: all pairs of
deduplicated uppercased names whose token sets share at least two tokens. -/
def overlaps (clients vendors : List (Option String)) : Finset Overlap :=
  (((nameSet clients) ×ˢ (nameSet vendors)).filter
      (fun p => 2 ≤ ((tokens p.1) ∩ (tokens p.2)).card)).image
    (fun p => ⟨p.1, p.2, (tokens p.1) ∩ (tokens p.2)⟩)

/-! ## Relationship Graph Builder (create_money_flow_network, lines 95-143)

networkx.Graph is modelled as a pair of total functions: a node-attribute
map and an edge-attribute map on ordered pairs kept symmetric by
construction (an undirected graph cannot hold parallel edges: each
unordered pair carries at most one attribute record, and add_edge
overwrites it).  The HTML tooltip strings are presentation data and are
not modelled; node type, color and size and edge weight, color and title
are. -/

/-- Node attributes (the tooltip is rendering-only and omitted). -/
structure NodeAttrs where
  node_type : String
  color : String
  size : Option ℚ
deriving DecidableEq

/-- Edge attributes. -/
structure EdgeAttrs where
  weight : ℚ
  color : String
  title : String
deriving DecidableEq

/-- An undirected attribute graph. -/
structure Graph where
  nodes : String → Option NodeAttrs
  edges : String → String → Option EdgeAttrs

/-- The empty graph. -/
def Graph.empty : Graph := ⟨fun _ => none, fun _ _ => none⟩

/-- Add (or overwrite) a node. -/
def addNode (G : Graph) (n : String) (a : NodeAttrs) : Graph :=
  ⟨fun m => if m = n then some a else G.nodes m, G.edges⟩

/-- Add (or overwrite) the undirected edge between u and v. -/
def addEdge (G : Graph) (u v : String) (e : EdgeAttrs) : Graph :=
  ⟨G.nodes, fun x y => if (x = u ∧ y = v) ∨ (x = v ∧ y = u) then some e else G.edges x y⟩

/-- Node attributes of an official, from their latest-period row: size is
the visual hint 40 + cashOnHand/200000 (missing cash gives a missing
size, as adding NaN does). -/
def officialNode (r : FinRecord) : NodeAttrs :=
  ⟨"official", "#e74c3c", r.cashOnHand.map (fun c => 40 + c / 200000)⟩

/-- Add one roster official's node when they have a latest-period row. -/
def addOfficialStep (latest : List FinRecord) (g : Graph) (o : String) : Graph :=
  match latest.find? (fun r => r.name == o) with
  | some r => addNode g o (officialNode r)
  | none => g

/-- Add all roster officials' nodes. -/
def addOfficials (latest : List FinRecord) (roster : List String) (G : Graph) : Graph :=
  roster.foldl (addOfficialStep latest) G

/-- The data of one lobbyist or vendor row: node name, node attributes and
the attributes of the edges it is connected with. -/
def EntityTriple : Type := String × NodeAttrs × EdgeAttrs

/-- Connect an entity node to one roster official if that official is a
node of the graph. -/
def connectStep (name : String) (e : EdgeAttrs) (g : Graph) (o : String) : Graph :=
  if (g.nodes o).isSome then addEdge g name o e else g

/-- Process one lobbyist or vendor row: add its node, then connect it to
every roster official present in the graph. -/
def addEntity (roster : List String) (g : Graph) (t : EntityTriple) : Graph :=
  roster.foldl (connectStep t.1 t.2.2) (addNode g t.1 t.2.1)

/-- The node and edge data of a lobbyist row. -/
def lobTriple (r : LobRecord) : EntityTriple :=
  (r.lobbyistName, ⟨"lobbyist", "#f39c12", some 20⟩,
    ⟨1, "#f39c12", "Lobbies on " ++ r.category⟩)

/-- The node and edge data of a vendor row. -/
def vendTriple (r : VendRecord) : EntityTriple :=
  (r.vendorName, ⟨"vendor", "#9b59b6", some 15⟩,
    ⟨0.5, "#9b59b6", "County contractor - " ++ r.category⟩)

/-- The relationship graph: official nodes from the latest-period data,
then lobbyist rows, then vendor rows, each connected to every roster
official present. -/
def create_money_flow_network (fin : List FinRecord) (lob : List LobRecord)
    (ven : List VendRecord) (roster : List String) : Graph :=
  (ven.map vendTriple).foldl (addEntity roster)
    ((lob.map lobTriple).foldl (addEntity roster)
      (addOfficials (latest_data fin) roster Graph.empty))

/-- The last lobbyist or vendor row carrying a given node name, if any:
the row whose node write survives in the final graph. -/
def lastTriple (ts : List EntityTriple) (n : String) : Option EntityTriple :=
  match ts with
  | [] => none
  | t :: ts2 =>
    match lastTriple ts2 n with
    | some u => some u
    | none => if t.1 = n then some t else none

/-! ## Anomaly Detector (main, lines 337-346, 471-484 and 505-514) -/

/-- A deficit-spender flag. -/
structure DeficitFlag where
  official : String
  deficit : ℚ
deriving DecidableEq

/-- Deficit spenders (lines 337-346): latest-period current-roster rows
with spent strictly above raised; a comparison with a missing operand is
false. -/
def deficit_spenders (fin : List FinRecord) (roster : List String) : List DeficitFlag :=
  (latest_current fin roster).filterMap (fun r =>
    match r.spent, r.raised with
    | some s, some q => if q < s then some ⟨r.name, s - q⟩ else none
    | _, _ => none)

/-- A lifetime spend-ratio flag. -/
structure RatioFlag where
  official : String
  ratio : ℚ
  totalRaised : ℚ
  totalSpent : ℚ
deriving DecidableEq

/-- Lifetime spend-ratio anomalies (lines 471-484): roster officials with
positive lifetime raised whose spent/raised ratio exceeds 1.2. -/
def ratioAnomalies (fin : List FinRecord) (roster : List String) : List RatioFlag :=
  roster.filterMap (fun o =>
    let a := lifetimeAggregate fin o
    if 0 < a.1 then
      if (1.2 : ℚ) < a.2.1 / a.1 then some ⟨o, a.2.1 / a.1, a.1, a.2.1⟩ else none
    else none)

/-- Occurrences of one category in the vendor category column. -/
def catCount (cats : List String) (c : String) : ℕ := cats.count c

/-- One step of the most-frequent-category scan: keep the current best
unless the next distinct category has a strictly larger count. -/
def topStep (cats : List String) (acc : Option String) (c : String) : Option String :=
  match acc with
  | none => some c
  | some b => if catCount cats b < catCount cats c then some c else some b

/-- The most frequent category (value_counts().index[0]): the first
distinct category of maximal count. -/
def topCategory (cats : List String) : Option String :=
  cats.dedup.foldl (topStep cats) none

/-- Vendor category concentration (lines 505-514): the most frequent
category together with its share of all vendors, when that share exceeds
one half. -/
def vendorConcentration (cats : List String) : Option (String × ℚ) :=
  match topCategory cats with
  | none => none
  | some c =>
    if (1 / 2 : ℚ) < (catCount cats c : ℚ) / cats.length then
      some (c, (catCount cats c : ℚ) / cats.length)
    else none

/-! ## Helper lemmas -/

theorem find?_eq_head?_filter {α : Type} (p : α → Bool) (l : List α) :
    l.find? p = (l.filter p).head? := by
  induction l with
  | nil => rfl
  | cons a t ih =>
    by_cases h : p a
    · rw [List.find?_cons_of_pos _ h, List.filter_cons_of_pos h, List.head?_cons]
    · rw [List.find?_cons_of_neg _ (by simp [h]), List.filter_cons_of_neg (by simp [h]), ih]

theorem perm_eq_of_length_le_one {α : Type} {l l' : List α}
    (h : l.Perm l') (hl : l.length ≤ 1) : l = l' := by
  cases l with
  | nil => simpa using h.symm.eq_nil
  | cons a t =>
    cases t with
    | nil => exact (List.perm_singleton.mp h.symm).symm
    | cons b t' => simp at hl

/-! ## Claim C3 -/

/-- C3 (amended): numeric normalization in coercion mode never raises: for
every raw cell value the result is a value — a number, possibly negative,
or a signed infinity from an infinity literal, or the missing sentinel —
never an error.  (The original claim also asserted the normalized value is
always finite and non-negative; the counterexample below refutes both
parts.) -/
theorem claim_C3_normalization_never_raises (s : String) :
    ∃ v : Option NumValue, to_numeric ErrMode.coerce s = NumResult.ok v := by
  unfold to_numeric
  cases parseCell (trimChars s.data) with
  | some v => exact ⟨v, rfl⟩
  | none => exact ⟨none, rfl⟩

/-- C3 counterexample: the cell written as minus five normalizes to the
negative number minus five, and the cell written inf normalizes to
positive infinity; each is neither the missing sentinel nor a finite
non-negative number, refuting the claim that every normalized field value
is a finite non-negative number or the missing sentinel. -/
theorem claim_C3_counterexample :
    (to_numeric ErrMode.coerce "-5" = NumResult.ok (some (NumValue.num (-5)))
      ∧ ((-5 : ℚ) < 0))
    ∧ to_numeric ErrMode.coerce "inf" = NumResult.ok (some NumValue.posInf) := by
  refine ⟨⟨?_, by norm_num⟩, rfl⟩
  have h : to_numeric ErrMode.coerce "-5"
      = NumResult.ok (some (NumValue.num (-(digitsVal ['5'] : ℚ)))) := rfl
  have h2 : digitsVal ['5'] = 5 := rfl
  rw [h2] at h
  rw [h]
  norm_num

/-! ## Claim C7 -/

/-- C7: the deficit-spender rule flags exactly the latest-period
current-roster rows whose spent strictly exceeds raised, with deficit
spent minus raised; and the scenario-A official with raised 100000 and
spent 150000 is flagged with deficit 50000. -/
theorem claim_C7_deficit_spenders :
    (∀ (fin : List FinRecord) (roster : List String) (e : DeficitFlag),
      e ∈ deficit_spenders fin roster ↔
        ∃ r ∈ latest_current fin roster, ∃ s q : ℚ,
          r.spent = some s ∧ r.raised = some q ∧ q < s ∧ e = ⟨r.name, s - q⟩)
  ∧ deficit_spenders [⟨"Jane Doe", "Jan 2025", 2025, some 100000, some 150000, none, none⟩]
      ["Jane Doe"] = [⟨"Jane Doe", 50000⟩] := by
  constructor
  · intro fin roster e
    unfold deficit_spenders
    rw [List.mem_filterMap]
    constructor
    · rintro ⟨r, hr, hf⟩
      refine ⟨r, hr, ?_⟩
      rcases hs : r.spent with _ | s <;> rcases hq : r.raised with _ | q <;>
          rw [hs, hq] at hf <;> simp only [] at hf
      · exact absurd hf (by simp)
      · exact absurd hf (by simp)
      · exact absurd hf (by simp)
      · by_cases hlt : q < s
        · rw [if_pos hlt] at hf
          exact ⟨s, q, rfl, rfl, hlt, (Option.some_inj.mp hf).symm⟩
        · rw [if_neg hlt] at hf
          exact absurd hf (by simp)
    · rintro ⟨r, hr, s, q, hs, hq, hlt, he⟩
      refine ⟨r, hr, ?_⟩
      rw [hs, hq]
      simp only [if_pos hlt, he]
  · norm_num [deficit_spenders, latest_current, latest_data, latest_period, List.filterMap]

/-! ## Claim C10 -/

/-- C10: an official whose latest-period spent or raised is the missing
sentinel is never flagged by the deficit-spender rule: the comparison with
a missing operand is false, so missing data yields no flag rather than a
flag or an error. -/
theorem claim_C10_missing_never_flagged (fin : List FinRecord) (roster : List String) (o : String)
    (h : ∀ r ∈ latest_current fin roster, r.name = o → r.spent = none ∨ r.raised = none) :
    (deficit_spenders fin roster).filter (fun e => e.official == o) = [] := by
  rw [List.filter_eq_nil_iff]
  intro e he
  simp only [beq_iff_eq]
  intro heq
  unfold deficit_spenders at he
  rw [List.mem_filterMap] at he
  obtain ⟨r, hr, hf⟩ := he
  rcases hs : r.spent with _ | s <;> rcases hq : r.raised with _ | q <;>
      rw [hs, hq] at hf <;> simp only [] at hf
  · exact absurd hf (by simp)
  · exact absurd hf (by simp)
  · exact absurd hf (by simp)
  · by_cases hlt : q < s
    · rw [if_pos hlt] at hf
      have hname : r.name = o := by
        have := Option.some_inj.mp hf
        rw [← this] at heq
        exact heq
      rcases h r hr hname with h1 | h1
      · rw [hs] at h1; exact Option.noConfusion h1
      · rw [hq] at h1; exact Option.noConfusion h1
    · rw [if_neg hlt] at hf
      exact absurd hf (by simp)

/-- C10 witness: a roster official whose only latest-period row has
missing spent produces no deficit flag. -/
theorem claim_C10_witness :
    (deficit_spenders [⟨"X", "P", 2025, some 5, none, none, none⟩] ["X"]).filter
      (fun e => e.official == "X") = [] :=
  claim_C10_missing_never_flagged [⟨"X", "P", 2025, some 5, none, none, none⟩] ["X"] "X"
    (by decide)

/-! ## Claim C6 -/

/-- C6: the lifetime spend-ratio rule flags a roster official exactly when
their lifetime total raised is strictly positive and total spent over total
raised exceeds 1.2, emitting the official together with ratio, total
raised and total spent; an official with zero lifetime raised is never
flagged, whatever their total spent. -/
theorem claim_C6_ratio_anomaly (fin : List FinRecord) (roster : List String) (o : String) :
    (o ∈ roster →
      ((⟨o, (lifetimeAggregate fin o).2.1 / (lifetimeAggregate fin o).1,
          (lifetimeAggregate fin o).1, (lifetimeAggregate fin o).2.1⟩ : RatioFlag)
          ∈ ratioAnomalies fin roster ↔
        0 < (lifetimeAggregate fin o).1
          ∧ (1.2 : ℚ) < (lifetimeAggregate fin o).2.1 / (lifetimeAggregate fin o).1))
  ∧ ((lifetimeAggregate fin o).1 = 0 →
      ∀ e ∈ ratioAnomalies fin roster, e.official ≠ o) := by
  constructor
  · intro ho
    unfold ratioAnomalies
    rw [List.mem_filterMap]
    constructor
    · rintro ⟨o2, ho2, hf⟩
      by_cases h1 : 0 < (lifetimeAggregate fin o2).1
      · rw [if_pos h1] at hf
        by_cases h2 : (1.2 : ℚ) < (lifetimeAggregate fin o2).2.1 / (lifetimeAggregate fin o2).1
        · rw [if_pos h2] at hf
          have he := Option.some_inj.mp hf
          have ho2o : o2 = o := congrArg RatioFlag.official he
          rw [ho2o] at h1 h2
          exact ⟨h1, h2⟩
        · rw [if_neg h2] at hf
          exact absurd hf (by simp)
      · rw [if_neg h1] at hf
        exact absurd hf (by simp)
    · rintro ⟨h1, h2⟩
      exact ⟨o, ho, by rw [if_pos h1, if_pos h2]⟩
  · intro h0 e he
    unfold ratioAnomalies at he
    rw [List.mem_filterMap] at he
    obtain ⟨o2, ho2, hf⟩ := he
    by_cases h1 : 0 < (lifetimeAggregate fin o2).1
    · rw [if_pos h1] at hf
      by_cases h2 : (1.2 : ℚ) < (lifetimeAggregate fin o2).2.1 / (lifetimeAggregate fin o2).1
      · rw [if_pos h2] at hf
        have he2 := Option.some_inj.mp hf
        have hoff : e.official = o2 := by rw [← he2]
        rw [hoff]
        intro hco
        rw [hco, h0] at h1
        exact lt_irrefl 0 h1
      · rw [if_neg h2] at hf
        exact absurd hf (by simp)
    · rw [if_neg h1] at hf
      exact absurd hf (by simp)

/-- C6 witness: an official with lifetime raised 100 and spent 200 (ratio
2 above 1.2) is flagged. -/
theorem claim_C6_witness :
    (⟨"X", (lifetimeAggregate [⟨"X", "P", 2025, some 100, some 200, none, none⟩] "X").2.1 /
          (lifetimeAggregate [⟨"X", "P", 2025, some 100, some 200, none, none⟩] "X").1,
        (lifetimeAggregate [⟨"X", "P", 2025, some 100, some 200, none, none⟩] "X").1,
        (lifetimeAggregate [⟨"X", "P", 2025, some 100, some 200, none, none⟩] "X").2.1⟩ : RatioFlag)
      ∈ ratioAnomalies [⟨"X", "P", 2025, some 100, some 200, none, none⟩] ["X"] :=
  ((claim_C6_ratio_anomaly [⟨"X", "P", 2025, some 100, some 200, none, none⟩] ["X"] "X").1
      (by simp)).mpr
    ⟨by norm_num [lifetimeAggregate, List.filter], by norm_num [lifetimeAggregate, List.filter]⟩

/-! ## Claim C9 helper lemmas -/

theorem topStep_ne_none (cats : List String) (acc : Option String) (c : String) :
    topStep cats acc c ≠ none := by
  cases acc with
  | none => simp [topStep]
  | some b =>
    simp only [topStep]
    split <;> simp

theorem topStep_none (cats : List String) (c : String) : topStep cats none c = some c := rfl

theorem topStep_some_pos (cats : List String) (a c : String)
    (h : catCount cats a < catCount cats c) : topStep cats (some a) c = some c := by
  simp only [topStep]
  exact if_pos h

theorem topStep_some_neg (cats : List String) (a c : String)
    (h : ¬catCount cats a < catCount cats c) : topStep cats (some a) c = some a := by
  simp only [topStep]
  exact if_neg h

theorem topCategory_fold_none (cats : List String) (l : List String) :
    ∀ acc : Option String, l.foldl (topStep cats) acc = none → acc = none ∧ l = [] := by
  induction l with
  | nil => exact fun acc h => ⟨h, rfl⟩
  | cons c t ih =>
    intro acc h
    rw [List.foldl_cons] at h
    exact absurd (ih _ h).1 (topStep_ne_none cats acc c)

theorem topCategory_fold_some (cats : List String) (l : List String) :
    ∀ (acc : Option String) (b : String), l.foldl (topStep cats) acc = some b →
      (b ∈ l ∨ acc = some b)
        ∧ (∀ d ∈ l, catCount cats d ≤ catCount cats b)
        ∧ (∀ a, acc = some a → catCount cats a ≤ catCount cats b) := by
  induction l with
  | nil =>
    intro acc b h
    rw [List.foldl_nil] at h
    refine ⟨Or.inr h, by simp, fun a ha => ?_⟩
    rw [h] at ha
    rw [Option.some_inj.mp ha]
  | cons c t ih =>
    intro acc b h
    rw [List.foldl_cons] at h
    obtain ⟨hmem, hall, hacc⟩ := ih (topStep cats acc c) b h
    have hstep_c : catCount cats c ≤ catCount cats b := by
      cases acc with
      | none => exact hacc c (topStep_none cats c)
      | some a0 =>
        by_cases hlt : catCount cats a0 < catCount cats c
        · exact hacc c (topStep_some_pos cats a0 c hlt)
        · exact le_trans (le_of_not_lt hlt) (hacc a0 (topStep_some_neg cats a0 c hlt))
    refine ⟨?_, ?_, ?_⟩
    · rcases hmem with hb | hb
      · exact Or.inl (List.mem_cons_of_mem _ hb)
      · cases acc with
        | none =>
          rw [topStep_none cats c] at hb
          exact Or.inl (by rw [← Option.some_inj.mp hb]; exact List.mem_cons_self _ _)
        | some a0 =>
          by_cases hlt : catCount cats a0 < catCount cats c
          · rw [topStep_some_pos cats a0 c hlt] at hb
            exact Or.inl (by rw [← Option.some_inj.mp hb]; exact List.mem_cons_self _ _)
          · rw [topStep_some_neg cats a0 c hlt] at hb
            exact Or.inr hb
    · intro d hd
      rcases List.mem_cons.mp hd with rfl | hd'
      · exact hstep_c
      · exact hall d hd'
    · intro a ha
      cases acc with
      | none => exact Option.noConfusion ha
      | some a0 =>
        have haa0 : a0 = a := Option.some_inj.mp ha
        subst haa0
        by_cases hlt : catCount cats a0 < catCount cats c
        · exact le_trans (le_of_lt hlt) hstep_c
        · exact hacc a0 (topStep_some_neg cats a0 c hlt)

theorem topCategory_spec (cats : List String) (b : String) (h : topCategory cats = some b) :
    b ∈ cats ∧ ∀ d, catCount cats d ≤ catCount cats b := by
  obtain ⟨hmem, hall, _⟩ := topCategory_fold_some cats cats.dedup none b h
  have hb : b ∈ cats := by
    rcases hmem with hb | hb
    · exact List.mem_dedup.mp hb
    · exact Option.noConfusion hb
  refine ⟨hb, fun d => ?_⟩
  by_cases hd : d ∈ cats
  · exact hall d (List.mem_dedup.mpr hd)
  · unfold catCount
    rw [List.count_eq_zero_of_not_mem hd]
    exact Nat.zero_le _

theorem topCategory_eq_none (cats : List String) (h : topCategory cats = none) : cats = [] :=
  (List.dedup_eq_nil _).mp (topCategory_fold_none cats cats.dedup none h).2

theorem count_add_count_le_length {c d : String} (hne : c ≠ d) (cats : List String) :
    catCount cats c + catCount cats d ≤ cats.length := by
  unfold catCount
  induction cats with
  | nil => simp
  | cons a t ih =>
    rw [List.count_cons, List.count_cons, List.length_cons]
    simp only [beq_iff_eq]
    split_ifs with h1 h2 h3
    · exact absurd (h1.symm.trans h2) hne
    · omega
    · omega
    · omega

theorem vendorConcentration_none (cats : List String) (h : topCategory cats = none) :
    vendorConcentration cats = none := by
  unfold vendorConcentration
  rw [h]

theorem vendorConcentration_some (cats : List String) (b : String)
    (h : topCategory cats = some b) :
    vendorConcentration cats =
      if (1 / 2 : ℚ) < (catCount cats b : ℚ) / cats.length
      then some (b, (catCount cats b : ℚ) / cats.length) else none := by
  unfold vendorConcentration
  rw [h]

/-! ## Claim C9 -/

/-- C9: the vendor-concentration rule emits a category and its share
exactly when that category is a most frequent vendor category whose share
of all vendors strictly exceeds one half; and the scenario-D distribution
(Construction 6, Legal 2, IT 2) is flagged as Construction with share
0.6. -/
theorem claim_C9_vendor_concentration :
    (∀ (cats : List String) (c : String) (s : ℚ),
      vendorConcentration cats = some (c, s) ↔
        c ∈ cats ∧ (∀ d, catCount cats d ≤ catCount cats c)
          ∧ (1 / 2 : ℚ) < (catCount cats c : ℚ) / cats.length
          ∧ s = (catCount cats c : ℚ) / cats.length)
  ∧ vendorConcentration
      ["Construction", "Construction", "Construction", "Construction", "Construction",
       "Construction", "Legal", "Legal", "IT", "IT"] = some ("Construction", 3 / 5) := by
  constructor
  · intro cats c s
    constructor
    · intro h
      cases htop : topCategory cats with
      | none => rw [vendorConcentration_none cats htop] at h; exact absurd h (by simp)
      | some b =>
        rw [vendorConcentration_some cats b htop] at h
        by_cases hsh : (1 / 2 : ℚ) < (catCount cats b : ℚ) / cats.length
        · rw [if_pos hsh] at h
          have hbc := Option.some_inj.mp h
          have hb : b = c := congrArg Prod.fst hbc
          have hs : ((catCount cats b : ℚ) / cats.length) = s := congrArg Prod.snd hbc
          obtain ⟨hmem, hmax⟩ := topCategory_spec cats b htop
          rw [hb] at hmem hmax hsh hs
          exact ⟨hmem, hmax, hsh, hs.symm⟩
        · rw [if_neg hsh] at h; exact absurd h (by simp)
    · rintro ⟨hc, hmax, hsh, hs⟩
      cases htop : topCategory cats with
      | none =>
        rw [topCategory_eq_none cats htop] at hc
        exact absurd hc (List.not_mem_nil c)
      | some b =>
        obtain ⟨hbmem, hbmax⟩ := topCategory_spec cats b htop
        have hcount : catCount cats b = catCount cats c := le_antisymm (hmax b) (hbmax c)
        have hlenpos : 0 < cats.length := List.length_pos.mpr (List.ne_nil_of_mem hc)
        have hlenQ : (0 : ℚ) < (cats.length : ℚ) := by exact_mod_cast hlenpos
        have hsh2 : (cats.length : ℚ) < 2 * (catCount cats c : ℚ) := by
          rw [div_lt_div_iff₀ (by norm_num) hlenQ] at hsh
          linarith
        have hn : cats.length < 2 * catCount cats c := by exact_mod_cast hsh2
        have hb : b = c := by
          by_contra hbc
          have hpair := count_add_count_le_length hbc cats
          rw [hcount] at hpair
          omega
        rw [vendorConcentration_some cats b htop, hb, if_pos hsh, hs]
  · have h1 : topCategory ["Construction", "Construction", "Construction", "Construction",
        "Construction", "Construction", "Legal", "Legal", "IT", "IT"] = some "Construction" := rfl
    have h2 : catCount ["Construction", "Construction", "Construction", "Construction",
        "Construction", "Construction", "Legal", "Legal", "IT", "IT"] "Construction" = 6 := rfl
    rw [vendorConcentration_some _ _ h1, h2]
    norm_num

/-! ## Claims C4 and C5: overlap detector -/

theorem mem_overlaps {C V : List (Option String)} {o : Overlap} :
    o ∈ overlaps C V ↔
      ∃ c ∈ nameSet C, ∃ v ∈ nameSet V,
        2 ≤ ((tokens c) ∩ (tokens v)).card ∧ o = ⟨c, v, (tokens c) ∩ (tokens v)⟩ := by
  unfold overlaps
  simp only [Finset.mem_image, Finset.mem_filter, Finset.mem_product]
  constructor
  · rintro ⟨⟨c, v⟩, ⟨⟨hc, hv⟩, hcard⟩, rfl⟩
    exact ⟨c, hc, v, hv, hcard, rfl⟩
  · rintro ⟨c, hc, v, hv, hcard, rfl⟩
    exact ⟨(c, v), ⟨⟨hc, hv⟩, hcard⟩, rfl⟩

/-- C4: an overlap record is emitted for a deduplicated client/vendor name
pair exactly when their uppercase whitespace-token sets share at least two
tokens, with sharedTokens that intersection; and the scenario-B pair of
ACME CONSULTING LLC and ACME CONSULTING SERVICES INC is emitted with
shared tokens ACME and CONSULTING. -/
theorem claim_C4_overlap_rule :
    (∀ (C V : List (Option String)) (o : Overlap),
      o ∈ overlaps C V ↔
        ∃ c ∈ nameSet C, ∃ v ∈ nameSet V,
          2 ≤ ((tokens c) ∩ (tokens v)).card ∧ o = ⟨c, v, (tokens c) ∩ (tokens v)⟩)
  ∧ (⟨"ACME CONSULTING LLC", "ACME CONSULTING SERVICES INC", {"ACME", "CONSULTING"}⟩ : Overlap)
      ∈ overlaps [some "ACME CONSULTING LLC"] [some "ACME CONSULTING SERVICES INC"] :=
  ⟨fun _ _ _ => mem_overlaps, by decide⟩

/-- C5: the overlap result is invariant under reordering of either name
list, and swapping the roles of clients and vendors swaps the client and
vendor fields of every emitted record. -/
theorem claim_C5_overlap_symmetry (C V C2 V2 : List (Option String))
    (hC : C.Perm C2) (hV : V.Perm V2) :
    overlaps C2 V2 = overlaps C V
      ∧ overlaps V C =
          (overlaps C V).image (fun o => ⟨o.vendor, o.client, o.sharedTokens⟩) := by
  have hns : ∀ (L L2 : List (Option String)), L.Perm L2 → nameSet L = nameSet L2 := by
    intro L L2 h
    exact List.toFinset_eq_of_perm _ _ ((h.filterMap id).map upperStr)
  constructor
  · unfold overlaps
    rw [hns C C2 hC, hns V V2 hV]
  · ext o
    simp only [Finset.mem_image]
    rw [mem_overlaps]
    constructor
    · rintro ⟨v, hv, c, hc, hcard, rfl⟩
      rw [Finset.inter_comm] at hcard
      refine ⟨⟨c, v, (tokens c) ∩ (tokens v)⟩, mem_overlaps.mpr ⟨c, hc, v, hv, hcard, rfl⟩, ?_⟩
      simp [Finset.inter_comm]
    · rintro ⟨o2, ho2, rfl⟩
      obtain ⟨c, hc, v, hv, hcard, rfl⟩ := mem_overlaps.mp ho2
      refine ⟨v, hv, c, hc, by rwa [Finset.inter_comm], ?_⟩
      simp [Finset.inter_comm]

/-- C5 witness: a concrete shuffled pair of name lists yields the same
overlap set, and swapping clients and vendors swaps the fields. -/
theorem claim_C5_witness :
    overlaps [some "ACME CORP", some "BETA GROUP LLC"] [some "BETA GROUP INC"] =
        overlaps [some "BETA GROUP LLC", some "ACME CORP"] [some "BETA GROUP INC"]
      ∧ overlaps [some "BETA GROUP INC"] [some "BETA GROUP LLC", some "ACME CORP"] =
          (overlaps [some "BETA GROUP LLC", some "ACME CORP"] [some "BETA GROUP INC"]).image
            (fun o => ⟨o.vendor, o.client, o.sharedTokens⟩) :=
  claim_C5_overlap_symmetry [some "BETA GROUP LLC", some "ACME CORP"] [some "BETA GROUP INC"]
    [some "ACME CORP", some "BETA GROUP LLC"] [some "BETA GROUP INC"]
    (List.Perm.swap _ _ _) (List.Perm.refl _)

/-! ## Claim C2 -/

/-- C2 counterexample: the latest period is read from the first record, so
permuting two records of different periods changes the period aggregate:
with records of periods P2 and P1 swapped, official X's latest-period
figures change, refuting invariance of the period aggregate under
arbitrary permutation. -/
theorem claim_C2_counterexample :
    ([⟨"X", "P2", 2025, some 2, none, none, none⟩,
      ⟨"X", "P1", 2025, some 1, none, none, none⟩] : List FinRecord).Perm
      [⟨"X", "P1", 2025, some 1, none, none, none⟩,
       ⟨"X", "P2", 2025, some 2, none, none, none⟩]
    ∧ periodFigures [⟨"X", "P2", 2025, some 2, none, none, none⟩,
          ⟨"X", "P1", 2025, some 1, none, none, none⟩] ["X"] "X"
        ≠ periodFigures [⟨"X", "P1", 2025, some 1, none, none, none⟩,
            ⟨"X", "P2", 2025, some 2, none, none, none⟩] ["X"] "X" := by
  constructor
  · exact List.Perm.swap _ _ _
  · have h1 : periodFigures [⟨"X", "P2", 2025, some 2, none, none, none⟩,
        ⟨"X", "P1", 2025, some 1, none, none, none⟩] ["X"] "X"
        = some (some 2, none, none, none) := rfl
    have h2 : periodFigures [⟨"X", "P1", 2025, some 1, none, none, none⟩,
        ⟨"X", "P2", 2025, some 2, none, none, none⟩] ["X"] "X"
        = some (some 1, none, none, none) := rfl
    rw [h1, h2]
    intro h
    have h3 : ((some 2 : Option ℚ), (none : Option ℚ), (none : Option ℚ), (none : Option ℚ))
        = (some 1, none, none, none) := Option.some_inj.mp h
    have h4 : (some 2 : Option ℚ) = some 1 := congrArg Prod.fst h3
    have h5 : (2 : ℚ) = 1 := Option.some_inj.mp h4
    norm_num at h5

/-- C2 (amended): the lifetime aggregate is invariant under arbitrary
permutation of the record sequence; the period aggregate is invariant
under those permutations that preserve the latest-period selection (the
report period of the first record), given the data-model invariant that an
official has at most one row in the latest period.  (The original claim,
invariance of both aggregates under every permutation, fails because the
latest period is read from the first record; see the counterexample.) -/
theorem claim_C2_amended_permutation_invariance (fin1 fin2 : List FinRecord)
    (roster : List String) (o : String) (hperm : fin1.Perm fin2) :
    lifetimeAggregate fin1 o = lifetimeAggregate fin2 o
      ∧ (latest_period fin1 = latest_period fin2 →
          ((latest_current fin1 roster).filter (fun r => r.name == o)).length ≤ 1 →
          periodFigures fin1 roster o = periodFigures fin2 roster o) := by
  constructor
  · have hf : (fin1.filter (fun r => r.name == o)).Perm
        (fin2.filter (fun r => r.name == o)) := hperm.filter _
    have hr : ((fin1.filter (fun r => r.name == o)).map (fun r => r.raised.getD 0)).sum
        = ((fin2.filter (fun r => r.name == o)).map (fun r => r.raised.getD 0)).sum :=
      (hf.map _).sum_eq
    have hs : ((fin1.filter (fun r => r.name == o)).map (fun r => r.spent.getD 0)).sum
        = ((fin2.filter (fun r => r.name == o)).map (fun r => r.spent.getD 0)).sum :=
      (hf.map _).sum_eq
    simp only [lifetimeAggregate]
    rw [hr, hs]
  · intro hp huniq
    have hlc : (latest_current fin1 roster).Perm (latest_current fin2 roster) := by
      unfold latest_current latest_data
      rw [← hp]
      cases hlp : latest_period fin1 with
      | none => exact List.Perm.refl _
      | some p => exact (hperm.filter _).filter _
    unfold periodFigures
    rw [find?_eq_head?_filter, find?_eq_head?_filter,
      perm_eq_of_length_le_one (hlc.filter _) huniq]

/-- C2 witness: with two same-period records swapped, the lifetime
aggregate is unchanged, and (the latest-period selection being preserved)
so is the period aggregate. -/
theorem claim_C2_witness :
    lifetimeAggregate [⟨"X", "P", 2025, some 1, some 2, none, none⟩,
        ⟨"Y", "P", 2025, some 3, some 4, none, none⟩] "X"
      = lifetimeAggregate [⟨"Y", "P", 2025, some 3, some 4, none, none⟩,
          ⟨"X", "P", 2025, some 1, some 2, none, none⟩] "X"
    ∧ periodFigures [⟨"X", "P", 2025, some 1, some 2, none, none⟩,
        ⟨"Y", "P", 2025, some 3, some 4, none, none⟩] ["X", "Y"] "X"
      = periodFigures [⟨"Y", "P", 2025, some 3, some 4, none, none⟩,
          ⟨"X", "P", 2025, some 1, some 2, none, none⟩] ["X", "Y"] "X" :=
  ⟨(claim_C2_amended_permutation_invariance
      [⟨"X", "P", 2025, some 1, some 2, none, none⟩, ⟨"Y", "P", 2025, some 3, some 4, none, none⟩]
      [⟨"Y", "P", 2025, some 3, some 4, none, none⟩, ⟨"X", "P", 2025, some 1, some 2, none, none⟩]
      ["X", "Y"] "X" (List.Perm.swap _ _ _)).1,
   (claim_C2_amended_permutation_invariance
      [⟨"X", "P", 2025, some 1, some 2, none, none⟩, ⟨"Y", "P", 2025, some 3, some 4, none, none⟩]
      [⟨"Y", "P", 2025, some 3, some 4, none, none⟩, ⟨"X", "P", 2025, some 1, some 2, none, none⟩]
      ["X", "Y"] "X" (List.Perm.swap _ _ _)).2 rfl (by decide)⟩

/-! ## Claim C1 helper lemmas -/

theorem s2edges_source (n k : ℕ) (r : FinRecord) :
    ∀ e ∈ s2edges n k r, e.1 = k + 1 := by
  intro e he
  simp only [s2edges] at he
  split at he
  · simp only [List.mem_cons, List.not_mem_nil, or_false] at he
    rcases he with rfl | rfl | rfl | rfl <;> rfl
  · exact absurd he (List.not_mem_nil e)

theorem s2edges_filter_self (n k : ℕ) (r : FinRecord) :
    (s2edges n k r).filter (fun e => e.1 == k + 1) = s2edges n k r := by
  rw [List.filter_eq_self]
  intro e he
  rw [beq_iff_eq]
  exact s2edges_source n k r e he

theorem stage2_source (n : ℕ) (l : List FinRecord) :
    ∀ (k : ℕ) (e : ℕ × ℕ × ℚ), e ∈ stage2 n k l → k + 1 ≤ e.1 := by
  induction l with
  | nil => intro k e he; exact absurd he (List.not_mem_nil e)
  | cons r rs ih =>
    intro k e he
    rw [stage2, List.mem_append] at he
    rcases he with he | he
    · rw [s2edges_source n k r e he]
    · exact le_trans (by omega) (ih (k + 1) e he)

theorem stage1_filter (l : List FinRecord) (i : ℕ) :
    ∀ k : ℕ, (stage1 k l).filter (fun e => e.1 == i + 1) = [] := by
  induction l with
  | nil => intro k; rfl
  | cons r rs ih =>
    intro k
    rw [stage1, List.filter_cons_of_neg (by simp), ih (k + 1)]

theorem stage2_filter (n : ℕ) (l : List FinRecord) :
    ∀ (k i : ℕ) (r : FinRecord), l[i]? = some r →
      (stage2 n k l).filter (fun e => e.1 == k + i + 1) = s2edges n (k + i) r := by
  induction l with
  | nil => intro k i r hi; rw [List.getElem?_nil] at hi; exact Option.noConfusion hi
  | cons r0 rs ih =>
    intro k i r hi
    cases i with
    | zero =>
      rw [List.getElem?_cons_zero] at hi
      have hr : r0 = r := Option.some_inj.mp hi
      subst hr
      simp only [Nat.add_zero]
      rw [stage2, List.filter_append]
      have h2 : (stage2 n (k + 1) rs).filter (fun e => e.1 == k + 1) = [] := by
        rw [List.filter_eq_nil_iff]
        intro e he
        have := stage2_source n rs (k + 1) e he
        simp only [beq_iff_eq]
        omega
      rw [h2, List.append_nil, s2edges_filter_self]
    | succ i' =>
      rw [List.getElem?_cons_succ] at hi
      have h1 : (s2edges n k r0).filter (fun e => e.1 == k + (i' + 1) + 1) = [] := by
        rw [List.filter_eq_nil_iff]
        intro e he
        have := s2edges_source n k r0 e he
        simp only [beq_iff_eq]
        omega
      have harith : k + (i' + 1) = (k + 1) + i' := by omega
      rw [stage2, List.filter_append, h1, List.nil_append, harith, ih (k + 1) i' r hi]

/-! ## Claim C1 -/

/-- C1: for every row of the latest-period current-roster subset with
positive spent S, exactly the four Stage-2 links with values S times 0.4,
0.3, 0.2 and 0.1 are emitted for it, their sum equals S exactly and hence
lies within relative tolerance 1e-6 of S; a row with missing or zero spent
emits no Stage-2 links.  (Stage-1 links all have source 0, so the links
with source i+1 are exactly row i's Stage-2 links.) -/
theorem claim_C1_flow_conservation (fin : List FinRecord) (roster : List String)
    (i : ℕ) (r : FinRecord)
    (hi : (latest_current fin roster)[i]? = some r) :
    (0 < r.spent.getD 0 →
      (sankey_links fin roster).filter (fun e => e.1 == i + 1)
          = [(i + 1, (latest_current fin roster).length + 1, r.spent.getD 0 * 0.4),
             (i + 1, (latest_current fin roster).length + 2, r.spent.getD 0 * 0.3),
             (i + 1, (latest_current fin roster).length + 3, r.spent.getD 0 * 0.2),
             (i + 1, (latest_current fin roster).length + 4, r.spent.getD 0 * 0.1)]
        ∧ (((sankey_links fin roster).filter (fun e => e.1 == i + 1)).map
              (fun e => e.2.2)).sum = r.spent.getD 0
        ∧ |(((sankey_links fin roster).filter (fun e => e.1 == i + 1)).map
              (fun e => e.2.2)).sum - r.spent.getD 0|
            ≤ (1e-6 : ℚ) * |r.spent.getD 0|)
  ∧ ((r.spent = none ∨ r.spent = some 0) →
      (sankey_links fin roster).filter (fun e => e.1 == i + 1) = []) := by
  have hfilter : (sankey_links fin roster).filter (fun e => e.1 == i + 1)
      = s2edges (latest_current fin roster).length i r := by
    unfold sankey_links
    rw [List.filter_append, stage1_filter (latest_current fin roster) i 0, List.nil_append]
    have h := stage2_filter (latest_current fin roster).length (latest_current fin roster)
      0 i r hi
    simpa only [Nat.zero_add] using h
  constructor
  · intro hpos
    have hs4 : s2edges (latest_current fin roster).length i r
        = [(i + 1, (latest_current fin roster).length + 1, r.spent.getD 0 * 0.4),
           (i + 1, (latest_current fin roster).length + 2, r.spent.getD 0 * 0.3),
           (i + 1, (latest_current fin roster).length + 3, r.spent.getD 0 * 0.2),
           (i + 1, (latest_current fin roster).length + 4, r.spent.getD 0 * 0.1)] := by
      simp only [s2edges]
      rw [if_pos hpos]
    have hsum : (((sankey_links fin roster).filter (fun e => e.1 == i + 1)).map
        (fun e => e.2.2)).sum = r.spent.getD 0 := by
      rw [hfilter, hs4]
      simp only [List.map_cons, List.map_nil, List.sum_cons, List.sum_nil]
      have hc : (0.4 : ℚ) + 0.3 + 0.2 + 0.1 = 1 := by norm_num
      nlinarith [hc]
    refine ⟨by rw [hfilter, hs4], hsum, ?_⟩
    rw [hsum, sub_self, abs_zero]
    positivity
  · intro hzero
    have hS : r.spent.getD 0 = 0 := by
      rcases hzero with h | h <;> rw [h] <;> rfl
    rw [hfilter]
    simp only [s2edges]
    rw [hS, if_neg (lt_irrefl 0)]

/-- C1 witness: a roster official with spent 100 in the latest period has
Stage-2 links summing exactly to 100. -/
theorem claim_C1_witness :
    (((sankey_links [⟨"A", "P", 2025, some 10, some 100, none, none⟩] ["A"]).filter
        (fun e => e.1 == 0 + 1)).map (fun e => e.2.2)).sum
      = (⟨"A", "P", 2025, some 10, some 100, none, none⟩ : FinRecord).spent.getD 0 :=
  ((claim_C1_flow_conservation [⟨"A", "P", 2025, some 10, some 100, none, none⟩] ["A"] 0
      ⟨"A", "P", 2025, some 10, some 100, none, none⟩ rfl).1 (by norm_num)).2.1

/-! ## Claim C8 helper lemmas: node maps of the graph builder -/

theorem connectStep_nodes (nm : String) (e : EdgeAttrs) (g : Graph) (o : String) :
    (connectStep nm e g o).nodes = g.nodes := by
  unfold connectStep
  split <;> rfl

theorem connect_fold_nodes (nm : String) (e : EdgeAttrs) (l : List String) :
    ∀ g : Graph, (l.foldl (connectStep nm e) g).nodes = g.nodes := by
  induction l with
  | nil => intro g; rfl
  | cons o l2 ih =>
    intro g
    rw [List.foldl_cons, ih, connectStep_nodes]

theorem addEntity_nodes (roster : List String) (g : Graph) (t : EntityTriple) (m : String) :
    (addEntity roster g t).nodes m = if m = t.1 then some t.2.1 else g.nodes m := by
  unfold addEntity
  rw [connect_fold_nodes]
  rfl

theorem lastTriple_eq_none (ts : List EntityTriple) (n : String)
    (h : lastTriple ts n = none) : ∀ t ∈ ts, t.1 ≠ n := by
  induction ts with
  | nil => intro t ht; exact absurd ht (List.not_mem_nil t)
  | cons t0 ts2 ih =>
    rw [lastTriple] at h
    intro t ht
    cases h2 : lastTriple ts2 n with
    | some u => rw [h2] at h; exact Option.noConfusion h
    | none =>
      rw [h2] at h
      rcases List.mem_cons.mp ht with rfl | ht2
      · intro hc
        rw [if_pos hc] at h
        exact Option.noConfusion h
      · exact ih h2 t ht2

theorem lastTriple_eq_some (ts : List EntityTriple) (n : String) (u : EntityTriple)
    (h : lastTriple ts n = some u) : u ∈ ts ∧ u.1 = n := by
  induction ts with
  | nil => exact Option.noConfusion h
  | cons t0 ts2 ih =>
    rw [lastTriple] at h
    cases h2 : lastTriple ts2 n with
    | some u2 =>
      rw [h2] at h
      have := Option.some_inj.mp h
      subst this
      exact ⟨List.mem_cons_of_mem _ (ih h2).1, (ih h2).2⟩
    | none =>
      rw [h2] at h
      by_cases hc : t0.1 = n
      · rw [if_pos hc] at h
        have := Option.some_inj.mp h
        subst this
        exact ⟨List.mem_cons_self _ _, hc⟩
      · rw [if_neg hc] at h
        exact Option.noConfusion h

theorem fold_addEntity_nodes_of_none (roster : List String) (ts : List EntityTriple)
    (m : String) :
    ∀ g : Graph, lastTriple ts m = none →
      (ts.foldl (addEntity roster) g).nodes m = g.nodes m := by
  induction ts with
  | nil => intro g _; rfl
  | cons t ts2 ih =>
    intro g h
    rw [lastTriple] at h
    cases h2 : lastTriple ts2 m with
    | some u => rw [h2] at h; exact Option.noConfusion h
    | none =>
      rw [h2] at h
      have ht : ¬m = t.1 := by
        intro hc
        rw [if_pos hc.symm] at h
        exact Option.noConfusion h
      rw [List.foldl_cons, ih _ h2, addEntity_nodes, if_neg ht]

theorem fold_addEntity_nodes_of_some (roster : List String) (ts : List EntityTriple)
    (m : String) (u : EntityTriple) :
    ∀ g : Graph, lastTriple ts m = some u →
      (ts.foldl (addEntity roster) g).nodes m = some u.2.1 := by
  induction ts with
  | nil => intro g h; exact Option.noConfusion h
  | cons t ts2 ih =>
    intro g h
    rw [lastTriple] at h
    cases h2 : lastTriple ts2 m with
    | some u2 =>
      rw [h2] at h
      have := Option.some_inj.mp h
      subst this
      rw [List.foldl_cons, ih _ h2]
    | none =>
      rw [h2] at h
      by_cases hc : t.1 = m
      · rw [if_pos hc] at h
        have := Option.some_inj.mp h
        subst this
        rw [List.foldl_cons, fold_addEntity_nodes_of_none roster ts2 m _ h2,
          addEntity_nodes, if_pos hc.symm]
      · rw [if_neg hc] at h
        exact Option.noConfusion h

/-! ## Claim C8 helper lemmas: edge maps of the graph builder -/

theorem addEdge_edges (g : Graph) (u v : String) (e : EdgeAttrs) (x y : String) :
    (addEdge g u v e).edges x y =
      if (x = u ∧ y = v) ∨ (x = v ∧ y = u) then some e else g.edges x y := rfl

theorem connect_fold_edges_stable (nm : String) (e : EdgeAttrs) (x y : String)
    (l : List String) :
    ∀ g : Graph, g.edges x y = some e →
      (l.foldl (connectStep nm e) g).edges x y = some e := by
  induction l with
  | nil => intro g h; exact h
  | cons o l2 ih =>
    intro g h
    rw [List.foldl_cons]
    refine ih _ ?_
    unfold connectStep
    split
    · rw [addEdge_edges]
      split
      · rfl
      · exact h
    · exact h

theorem connect_fold_edges_hit (nm : String) (e : EdgeAttrs) (x y : String)
    (hxy : x ≠ y) (hnx : nm = x) (l : List String) :
    ∀ g : Graph, y ∈ l → (g.nodes y).isSome = true →
      (l.foldl (connectStep nm e) g).edges x y = some e := by
  induction l with
  | nil => intro g hy _; exact absurd hy (List.not_mem_nil y)
  | cons o l2 ih =>
    intro g hy hsy
    rw [List.foldl_cons]
    by_cases hyo : y = o
    · subst hyo
      have hg : (connectStep nm e g y).edges x y = some e := by
        unfold connectStep
        rw [if_pos hsy, addEdge_edges, if_pos (Or.inl ⟨hnx.symm, rfl⟩)]
      exact connect_fold_edges_stable nm e x y l2 _ hg
    · have hy2 : y ∈ l2 := by
        rcases List.mem_cons.mp hy with h | h
        · exact absurd h hyo
        · exact h
      refine ih _ hy2 ?_
      rw [connectStep_nodes]
      exact hsy

theorem connect_fold_edges_miss (nm : String) (e : EdgeAttrs) (x y : String)
    (h1 : nm ≠ x) (h2 : nm ≠ y) (l : List String) :
    ∀ g : Graph, (l.foldl (connectStep nm e) g).edges x y = g.edges x y := by
  induction l with
  | nil => intro g; rfl
  | cons o l2 ih =>
    intro g
    rw [List.foldl_cons, ih]
    unfold connectStep
    split
    · rw [addEdge_edges]
      rw [if_neg ?hc]
      case hc =>
        rintro (⟨hx, _⟩ | ⟨_, hy⟩)
        · exact h1 hx.symm
        · exact h2 hy.symm
    · rfl

theorem addNode_nodes_isSome (g : Graph) (n : String) (a : NodeAttrs) (m : String)
    (h : (g.nodes m).isSome = true) : ((addNode g n a).nodes m).isSome = true := by
  show (if m = n then some a else g.nodes m).isSome = true
  by_cases hm : m = n
  · rw [if_pos hm]; rfl
  · rw [if_neg hm]; exact h

theorem addEntity_edges_hit (roster : List String) (g : Graph) (t : EntityTriple)
    (x y : String) (hxy : x ≠ y) (ht : t.1 = x) (hy : y ∈ roster)
    (hsy : (g.nodes y).isSome = true) :
    (addEntity roster g t).edges x y = some t.2.2 := by
  unfold addEntity
  exact connect_fold_edges_hit t.1 t.2.2 x y hxy ht roster _ hy
    (addNode_nodes_isSome g t.1 t.2.1 y hsy)

theorem addEntity_edges_miss (roster : List String) (g : Graph) (t : EntityTriple)
    (x y : String) (h1 : t.1 ≠ x) (h2 : t.1 ≠ y) :
    (addEntity roster g t).edges x y = g.edges x y := by
  unfold addEntity
  rw [connect_fold_edges_miss t.1 t.2.2 x y h1 h2 roster]
  rfl

theorem fold_addEntity_edges (roster : List String) (ts : List EntityTriple)
    (x y : String) (hxy : x ≠ y) (hy : y ∈ roster) :
    ∀ g : Graph, (g.nodes y).isSome = true → (∀ t ∈ ts, t.1 ≠ y) →
      (ts.foldl (addEntity roster) g).edges x y =
        match lastTriple ts x with
        | some t => some t.2.2
        | none => g.edges x y := by
  induction ts with
  | nil => intro g _ _; rfl
  | cons t ts2 ih =>
    intro g hsy hny
    have hty : t.1 ≠ y := hny t (List.mem_cons_self _ _)
    have hny2 : ∀ u ∈ ts2, u.1 ≠ y := fun u hu => hny u (List.mem_cons_of_mem _ hu)
    have hsy2 : ((addEntity roster g t).nodes y).isSome = true := by
      rw [addEntity_nodes, if_neg (fun hc => hty hc.symm)]
      exact hsy
    rw [List.foldl_cons, ih _ hsy2 hny2, lastTriple]
    cases h2 : lastTriple ts2 x with
    | some u => rfl
    | none =>
      by_cases hc : t.1 = x
      · rw [if_pos hc, addEntity_edges_hit roster g t x y hxy hc hy hsy]
      · rw [if_neg hc, addEntity_edges_miss roster g t x y hc hty]

theorem fold_addEntity_edges_miss (roster : List String) (ts : List EntityTriple)
    (x y : String) :
    ∀ g : Graph, (∀ t ∈ ts, t.1 ≠ x ∧ t.1 ≠ y) →
      (ts.foldl (addEntity roster) g).edges x y = g.edges x y := by
  induction ts with
  | nil => intro g _; rfl
  | cons t ts2 ih =>
    intro g h
    have ht := h t (List.mem_cons_self _ _)
    rw [List.foldl_cons, ih _ (fun u hu => h u (List.mem_cons_of_mem _ hu)),
      addEntity_edges_miss roster g t x y ht.1 ht.2]

/-! ## Claim C8 helper lemmas: official phase and symmetry -/

theorem addOfficialStep_edges (latest : List FinRecord) (g : Graph) (o : String)
    (x y : String) : (addOfficialStep latest g o).edges x y = g.edges x y := by
  unfold addOfficialStep
  split <;> rfl

theorem addOfficials_edges (latest : List FinRecord) (l : List String) (x y : String) :
    ∀ G : Graph, (addOfficials latest l G).edges x y = G.edges x y := by
  induction l with
  | nil => intro G; rfl
  | cons o l2 ih =>
    intro G
    unfold addOfficials at ih ⊢
    rw [List.foldl_cons, ih, addOfficialStep_edges]

theorem addOfficials_nodes (latest : List FinRecord) (l : List String) (n : String)
    (a : NodeAttrs) :
    ∀ G : Graph, (addOfficials latest l G).nodes n = some a →
      (n ∈ l ∧ ∃ r, latest.find? (fun rr => rr.name == n) = some r ∧ a = officialNode r)
        ∨ G.nodes n = some a := by
  induction l with
  | nil => intro G h; exact Or.inr h
  | cons o l2 ih =>
    intro G h
    unfold addOfficials at ih h
    rw [List.foldl_cons] at h
    rcases ih _ h with ⟨hmem, hr⟩ | h2
    · exact Or.inl ⟨List.mem_cons_of_mem _ hmem, hr⟩
    · unfold addOfficialStep at h2
      cases hf : latest.find? (fun rr => rr.name == o) with
      | none => rw [hf] at h2; exact Or.inr h2
      | some r =>
        rw [hf] at h2
        have h3 : (if n = o then some (officialNode r) else G.nodes n) = some a := h2
        by_cases hno : n = o
        · rw [if_pos hno] at h3
          subst hno
          exact Or.inl ⟨List.mem_cons_self _ _, r, hf, (Option.some_inj.mp h3).symm⟩
        · rw [if_neg hno] at h3
          exact Or.inr h3

theorem addEdge_edges_symm (g : Graph) (u v : String) (e : EdgeAttrs)
    (h : ∀ a b, g.edges a b = g.edges b a) (a b : String) :
    (addEdge g u v e).edges a b = (addEdge g u v e).edges b a := by
  rw [addEdge_edges, addEdge_edges]
  by_cases hc : (a = u ∧ b = v) ∨ (a = v ∧ b = u)
  · rw [if_pos hc, if_pos (by tauto)]
  · rw [if_neg hc, if_neg (by tauto), h a b]

theorem connect_fold_edges_symm (nm : String) (e : EdgeAttrs) (l : List String) :
    ∀ g : Graph, (∀ a b, g.edges a b = g.edges b a) →
      ∀ a b, (l.foldl (connectStep nm e) g).edges a b
        = (l.foldl (connectStep nm e) g).edges b a := by
  induction l with
  | nil => intro g h; exact h
  | cons o l2 ih =>
    intro g h
    rw [List.foldl_cons]
    refine ih _ ?_
    intro a b
    unfold connectStep
    split
    · exact addEdge_edges_symm g nm o e h a b
    · exact h a b

theorem fold_addEntity_edges_symm (roster : List String) (ts : List EntityTriple) :
    ∀ g : Graph, (∀ a b, g.edges a b = g.edges b a) →
      ∀ a b, (ts.foldl (addEntity roster) g).edges a b
        = (ts.foldl (addEntity roster) g).edges b a := by
  induction ts with
  | nil => intro g h; exact h
  | cons t ts2 ih =>
    intro g h
    rw [List.foldl_cons]
    refine ih _ ?_
    unfold addEntity
    exact connect_fold_edges_symm t.1 t.2.2 roster _ (fun a b => h a b)

/-! ## Claim C8 -/

/-- C8: in the relationship graph built from any inputs, every lobbyist
node carries an edge of weight 1 to every official node, labeled with that
lobbyist's category, and every vendor node carries an edge of weight 0.5
to every official node, labeled with the vendor's category; the edge map
is symmetric and holds at most one attribute record per node pair (no
parallel edges), and the builder is a pure function, so identical inputs
yield identical graphs. -/
theorem claim_C8_relationship_graph (fin : List FinRecord) (lob : List LobRecord)
    (ven : List VendRecord) (roster : List String) :
    (∀ x y ax ay,
      (create_money_flow_network fin lob ven roster).nodes x = some ax →
      (create_money_flow_network fin lob ven roster).nodes y = some ay →
      ax.node_type = "lobbyist" → ay.node_type = "official" →
      ∃ r, r ∈ lob ∧ r.lobbyistName = x ∧
        (create_money_flow_network fin lob ven roster).edges x y
          = some ⟨1, "#f39c12", "Lobbies on " ++ r.category⟩)
  ∧ (∀ x y ax ay,
      (create_money_flow_network fin lob ven roster).nodes x = some ax →
      (create_money_flow_network fin lob ven roster).nodes y = some ay →
      ax.node_type = "vendor" → ay.node_type = "official" →
      ∃ r, r ∈ ven ∧ r.vendorName = x ∧
        (create_money_flow_network fin lob ven roster).edges x y
          = some ⟨0.5, "#9b59b6", "County contractor - " ++ r.category⟩)
  ∧ (∀ x y, (create_money_flow_network fin lob ven roster).edges x y
      = (create_money_flow_network fin lob ven roster).edges y x)
  ∧ create_money_flow_network fin lob ven roster
      = create_money_flow_network fin lob ven roster := by
  refine ⟨?_, ?_, ?_, rfl⟩
  · intro x y ax ay hx hy hax hay
    unfold create_money_flow_network at hx hy ⊢
    set G0 := addOfficials (latest_data fin) roster Graph.empty with hG0def
    set G1 := List.foldl (addEntity roster) G0 (List.map lobTriple lob) with hG1def
    have hvy : lastTriple (ven.map vendTriple) y = none := by
      cases hv : lastTriple (ven.map vendTriple) y with
      | none => rfl
      | some u =>
        obtain ⟨rv, _, hurv⟩ := List.mem_map.mp (lastTriple_eq_some _ _ _ hv).1
        have hnv := fold_addEntity_nodes_of_some roster (ven.map vendTriple) y u G1 hv
        rw [hnv] at hy
        have h2 : u.2.1 = ay := Option.some_inj.mp hy
        rw [← h2, ← hurv, show (vendTriple rv).2.1.node_type = "vendor" from rfl] at hay
        exact absurd hay (by decide)
    rw [fold_addEntity_nodes_of_none roster (ven.map vendTriple) y G1 hvy] at hy
    have hly : lastTriple (lob.map lobTriple) y = none := by
      cases hl : lastTriple (lob.map lobTriple) y with
      | none => rfl
      | some u =>
        obtain ⟨rl, _, hurl⟩ := List.mem_map.mp (lastTriple_eq_some _ _ _ hl).1
        have hnl := fold_addEntity_nodes_of_some roster (lob.map lobTriple) y u G0 hl
        rw [hG1def, hnl] at hy
        have h2 : u.2.1 = ay := Option.some_inj.mp hy
        rw [← h2, ← hurl, show (lobTriple rl).2.1.node_type = "lobbyist" from rfl] at hay
        exact absurd hay (by decide)
    rw [hG1def, fold_addEntity_nodes_of_none roster (lob.map lobTriple) y G0 hly] at hy
    have hyro : y ∈ roster := by
      rcases addOfficials_nodes (latest_data fin) roster y ay Graph.empty hy with h2 | h2
      · exact h2.1
      · exact Option.noConfusion h2
    have hvx : lastTriple (ven.map vendTriple) x = none := by
      cases hv : lastTriple (ven.map vendTriple) x with
      | none => rfl
      | some u =>
        obtain ⟨rv, _, hurv⟩ := List.mem_map.mp (lastTriple_eq_some _ _ _ hv).1
        have hnv := fold_addEntity_nodes_of_some roster (ven.map vendTriple) x u G1 hv
        rw [hnv] at hx
        have h2 : u.2.1 = ax := Option.some_inj.mp hx
        rw [← h2, ← hurv, show (vendTriple rv).2.1.node_type = "vendor" from rfl] at hax
        exact absurd hax (by decide)
    rw [fold_addEntity_nodes_of_none roster (ven.map vendTriple) x G1 hvx] at hx
    have hlx : ∃ u, lastTriple (lob.map lobTriple) x = some u := by
      cases hl : lastTriple (lob.map lobTriple) x with
      | some u => exact ⟨u, rfl⟩
      | none =>
        rw [hG1def, fold_addEntity_nodes_of_none roster (lob.map lobTriple) x G0 hl] at hx
        rcases addOfficials_nodes (latest_data fin) roster x ax Graph.empty hx with
          ⟨_, r, _, hat⟩ | h2
        · rw [hat, show (officialNode r).node_type = "official" from rfl] at hax
          exact absurd hax (by decide)
        · exact Option.noConfusion h2
    obtain ⟨u, hu⟩ := hlx
    obtain ⟨humem, hux⟩ := lastTriple_eq_some _ _ _ hu
    obtain ⟨rl, hrl, hurl⟩ := List.mem_map.mp humem
    have hxy : x ≠ y := by
      intro hc
      subst hc
      rw [hu] at hly
      exact Option.noConfusion hly
    have hG0y : (G0.nodes y).isSome = true := by rw [hy]; rfl
    have hE1 : G1.edges x y = some u.2.2 := by
      have h2 := fold_addEntity_edges roster (lob.map lobTriple) x y hxy hyro
        G0 hG0y (lastTriple_eq_none _ _ hly)
      rw [hu] at h2
      rw [hG1def]
      exact h2
    have hEv := fold_addEntity_edges_miss roster (ven.map vendTriple) x y G1
      (fun t ht => ⟨lastTriple_eq_none _ _ hvx t ht, lastTriple_eq_none _ _ hvy t ht⟩)
    refine ⟨rl, hrl, ?_, ?_⟩
    · rw [← hux, ← hurl]
      rfl
    · rw [hEv, hE1, ← hurl]
      rfl
  · intro x y ax ay hx hy hax hay
    unfold create_money_flow_network at hx hy ⊢
    set G0 := addOfficials (latest_data fin) roster Graph.empty with hG0def
    set G1 := List.foldl (addEntity roster) G0 (List.map lobTriple lob) with hG1def
    have hvy : lastTriple (ven.map vendTriple) y = none := by
      cases hv : lastTriple (ven.map vendTriple) y with
      | none => rfl
      | some u =>
        obtain ⟨rv, _, hurv⟩ := List.mem_map.mp (lastTriple_eq_some _ _ _ hv).1
        have hnv := fold_addEntity_nodes_of_some roster (ven.map vendTriple) y u G1 hv
        rw [hnv] at hy
        have h2 : u.2.1 = ay := Option.some_inj.mp hy
        rw [← h2, ← hurv, show (vendTriple rv).2.1.node_type = "vendor" from rfl] at hay
        exact absurd hay (by decide)
    rw [fold_addEntity_nodes_of_none roster (ven.map vendTriple) y G1 hvy] at hy
    have hly : lastTriple (lob.map lobTriple) y = none := by
      cases hl : lastTriple (lob.map lobTriple) y with
      | none => rfl
      | some u =>
        obtain ⟨rl, _, hurl⟩ := List.mem_map.mp (lastTriple_eq_some _ _ _ hl).1
        have hnl := fold_addEntity_nodes_of_some roster (lob.map lobTriple) y u G0 hl
        rw [hG1def, hnl] at hy
        have h2 : u.2.1 = ay := Option.some_inj.mp hy
        rw [← h2, ← hurl, show (lobTriple rl).2.1.node_type = "lobbyist" from rfl] at hay
        exact absurd hay (by decide)
    have hyG0 : G0.nodes y = some ay := by
      rw [hG1def, fold_addEntity_nodes_of_none roster (lob.map lobTriple) y G0 hly] at hy
      exact hy
    have hyro : y ∈ roster := by
      rcases addOfficials_nodes (latest_data fin) roster y ay Graph.empty hyG0 with h2 | h2
      · exact h2.1
      · exact Option.noConfusion h2
    have hvx : ∃ u, lastTriple (ven.map vendTriple) x = some u := by
      cases hv : lastTriple (ven.map vendTriple) x with
      | some u => exact ⟨u, rfl⟩
      | none =>
        rw [fold_addEntity_nodes_of_none roster (ven.map vendTriple) x G1 hv] at hx
        cases hl : lastTriple (lob.map lobTriple) x with
        | some u =>
          obtain ⟨rl, _, hurl⟩ := List.mem_map.mp (lastTriple_eq_some _ _ _ hl).1
          have hnl := fold_addEntity_nodes_of_some roster (lob.map lobTriple) x u G0 hl
          rw [hG1def, hnl] at hx
          have h2 : u.2.1 = ax := Option.some_inj.mp hx
          rw [← h2, ← hurl, show (lobTriple rl).2.1.node_type = "lobbyist" from rfl] at hax
          exact absurd hax (by decide)
        | none =>
          rw [hG1def, fold_addEntity_nodes_of_none roster (lob.map lobTriple) x G0 hl] at hx
          rcases addOfficials_nodes (latest_data fin) roster x ax Graph.empty hx with
            ⟨_, r, _, hat⟩ | h2
          · rw [hat, show (officialNode r).node_type = "official" from rfl] at hax
            exact absurd hax (by decide)
          · exact Option.noConfusion h2
    obtain ⟨u, hu⟩ := hvx
    obtain ⟨humem, hux⟩ := lastTriple_eq_some _ _ _ hu
    obtain ⟨rv, hrv, hurv⟩ := List.mem_map.mp humem
    have hxy : x ≠ y := by
      intro hc
      subst hc
      rw [hu] at hvy
      exact Option.noConfusion hvy
    have hG1y : (G1.nodes y).isSome = true := by
      rw [hG1def, fold_addEntity_nodes_of_none roster (lob.map lobTriple) y G0 hly, hyG0]
      rfl
    have hEv : (List.foldl (addEntity roster) G1 (List.map vendTriple ven)).edges x y
        = some u.2.2 := by
      have h2 := fold_addEntity_edges roster (ven.map vendTriple) x y hxy hyro
        G1 hG1y (lastTriple_eq_none _ _ hvy)
      rw [hu] at h2
      exact h2
    refine ⟨rv, hrv, ?_, ?_⟩
    · rw [← hux, ← hurv]
      rfl
    · rw [hEv, ← hurv]
      rfl
  · intro x y
    unfold create_money_flow_network
    refine fold_addEntity_edges_symm roster (ven.map vendTriple) _
      (fold_addEntity_edges_symm roster (lob.map lobTriple) _ ?_) x y
    intro a b
    rw [addOfficials_edges, addOfficials_edges]
    rfl

/-- C8 witness: in a concrete graph with one official, one lobbyist and
one vendor, the lobbyist-official edge has weight 1 and the lobbyist's
category label. -/
theorem claim_C8_witness :
    (create_money_flow_network
        [⟨"Lina Hidalgo", "P", 2025, none, none, none, some 100⟩]
        [⟨"Bob", "ACME", "Energy"⟩] [⟨"VendCo", "IT", "Dept"⟩]
        ["Lina Hidalgo"]).edges "Bob" "Lina Hidalgo"
      = some ⟨1, "#f39c12", "Lobbies on " ++ "Energy"⟩ := by
  obtain ⟨r, hr, _, hedge⟩ :=
    (claim_C8_relationship_graph
        [⟨"Lina Hidalgo", "P", 2025, none, none, none, some 100⟩]
        [⟨"Bob", "ACME", "Energy"⟩] [⟨"VendCo", "IT", "Dept"⟩]
        ["Lina Hidalgo"]).1 "Bob" "Lina Hidalgo"
      ⟨"lobbyist", "#f39c12", some 20⟩
      (officialNode ⟨"Lina Hidalgo", "P", 2025, none, none, none, some 100⟩)
      rfl rfl rfl rfl
  have hr2 : r = ⟨"Bob", "ACME", "Energy"⟩ := List.mem_singleton.mp hr
  rw [hr2] at hedge
  exact hedge
